import Mathlib

/-!
Verification of the S3 Express shared data cache backend
(`mountpoint-s3/src/data_cache/express_data_cache.rs`).

Bytes are modelled as `Nat` values below 256, byte buffers as `List Nat`,
and 64-bit machine arithmetic as `Nat` reduced `% 2^64` where the Rust code
can wrap.  The backing object store is modelled as a key-indexed oracle
(`String → GetObjectOutcome` for streaming reads, `String → Option (List Nat)`
for the persisted contents).
-/

namespace ExpressCache

/-! ## SHA-256 (the `sha2` crate's `Sha256`, as used for key derivation) -/

/-- Right rotation of a 32-bit word held in a `Nat`. -/
def rotr32 (n x : Nat) : Nat :=
  ((x >>> n) ||| (x <<< (32 - n))) % 2 ^ 32

/-- SHA-256 message-schedule sigma-0. -/
def ssig0 (x : Nat) : Nat := (rotr32 7 x) ^^^ (rotr32 18 x) ^^^ (x >>> 3)

/-- SHA-256 message-schedule sigma-1. -/
def ssig1 (x : Nat) : Nat := (rotr32 17 x) ^^^ (rotr32 19 x) ^^^ (x >>> 10)

/-- SHA-256 compression Sigma-0. -/
def bsig0 (x : Nat) : Nat := (rotr32 2 x) ^^^ (rotr32 13 x) ^^^ (rotr32 22 x)

/-- SHA-256 compression Sigma-1. -/
def bsig1 (x : Nat) : Nat := (rotr32 6 x) ^^^ (rotr32 11 x) ^^^ (rotr32 25 x)

/-- SHA-256 choice function (with 32-bit complement written as xor with the mask). -/
def shaCh (x y z : Nat) : Nat := (x &&& y) ^^^ ((x ^^^ 0xffffffff) &&& z)

/-- SHA-256 majority function. -/
def shaMaj (x y z : Nat) : Nat := (x &&& y) ^^^ (x &&& z) ^^^ (y &&& z)

/-- The 64 SHA-256 round constants (FIPS 180-4, written in decimal). -/
def shaK : List Nat :=
  [1116352408, 1899447441, 3049323471, 3921009573, 961987163, 1508970993,
   2453635748, 2870763221, 3624381080, 310598401, 607225278, 1426881987,
   1925078388, 2162078206, 2614888103, 3248222580, 3835390401, 4022224774,
   264347078, 604807628, 770255983, 1249150122, 1555081692, 1996064986,
   2554220882, 2821834349, 2952996808, 3210313671, 3336571891, 3584528711,
   113926993, 338241895, 666307205, 773529912, 1294757372, 1396182291,
   1695183700, 1986661051, 2177026350, 2456956037, 2730485921, 2820302411,
   3259730800, 3345764771, 3516065817, 3600352804, 4094571909, 275423344,
   430227734, 506948616, 659060556, 883997877, 958139571, 1322822218,
   1537002063, 1747873779, 1955562222, 2024104815, 2227730452, 2361852424,
   2428436474, 2756734187, 3204031479, 3329325298]

/-- SHA-256 initial hash state. -/
structure ShaState where
  a : Nat
  b : Nat
  c : Nat
  d : Nat
  e : Nat
  f : Nat
  g : Nat
  h : Nat
deriving DecidableEq, Repr

/-- The SHA-256 initialisation vector (FIPS 180-4, written in decimal). -/
def shaInit : ShaState :=
  ⟨1779033703, 3144134277, 1013904242, 2773480762,
   1359893119, 2600822924, 528734635, 1541459225⟩

/-- One SHA-256 round: mix the round constant and schedule word into the state. -/
def shaRound (s : ShaState) (kw : Nat) : ShaState :=
  let t1 := (s.h + bsig1 s.e + shaCh s.e s.f s.g + kw) % 2 ^ 32
  let t2 := (bsig0 s.a + shaMaj s.a s.b s.c) % 2 ^ 32
  ⟨(t1 + t2) % 2 ^ 32, s.a, s.b, s.c, (s.d + t1) % 2 ^ 32, s.e, s.f, s.g⟩

/-- Extend the 16 block words to the 64-entry message schedule. -/
def shaSchedule (ws : List Nat) : Nat → List Nat
  | 0 => ws
  | k + 1 =>
    let ws2 := shaSchedule ws k
    let n := ws2.length
    ws2 ++ [(ssig1 (ws2.getD (n - 2) 0) + ws2.getD (n - 7) 0 +
             ssig0 (ws2.getD (n - 15) 0) + ws2.getD (n - 16) 0) % 2 ^ 32]

/-- Add two SHA-256 states word-wise modulo `2^32`. -/
def shaAdd (s t : ShaState) : ShaState :=
  ⟨(s.a + t.a) % 2 ^ 32, (s.b + t.b) % 2 ^ 32, (s.c + t.c) % 2 ^ 32, (s.d + t.d) % 2 ^ 32,
   (s.e + t.e) % 2 ^ 32, (s.f + t.f) % 2 ^ 32, (s.g + t.g) % 2 ^ 32, (s.h + t.h) % 2 ^ 32⟩

/-- Pack four consecutive bytes of the list (big-endian) into one word,
reading groups starting at the front. -/
def bytesToWords : List Nat → List Nat
  | b0 :: b1 :: b2 :: b3 :: rest =>
    (((b0 * 256 + b1) * 256 + b2) * 256 + b3) :: bytesToWords rest
  | _ => []

/-- Compress one 64-byte block into the running state. -/
def shaCompress (s : ShaState) (block : List Nat) : ShaState :=
  let ws := shaSchedule (bytesToWords block) 48
  shaAdd s ((shaK.zip ws).foldl (fun st kw => shaRound st (kw.1 + kw.2)) s)

/-- Split a byte list into 64-byte blocks, with structural fuel so the kernel
can evaluate it (each step consumes at least one element, so a fuel of the
list's length is enough). -/
def toBlocksFuel : Nat → List Nat → List (List Nat)
  | 0, _ => []
  | _, [] => []
  | fuel + 1, l => l.take 64 :: toBlocksFuel fuel (l.drop 64)

/-- Split a byte list into 64-byte blocks (the list length is a multiple of 64
after padding). -/
def toBlocks (l : List Nat) : List (List Nat) :=
  toBlocksFuel l.length l

/-- Big-endian byte rendering of a `Nat` in `w` bytes (the low `8*w` bits). -/
def natToBEBytes (w n : Nat) : List Nat :=
  (List.range w).map fun i => (n >>> (8 * (w - 1 - i))) &&& 255

/-- SHA-256 message padding: a `0x80` byte, zeros to 56 mod 64, then the
bit length as a 64-bit big-endian integer. -/
def shaPad (msg : List Nat) : List Nat :=
  msg ++ [0x80] ++ List.replicate ((119 - msg.length % 64) % 64) 0 ++
    natToBEBytes 8 (8 * msg.length % 2 ^ 64)

/-- SHA-256 of a byte list, as the 32-byte digest. -/
def sha256 (msg : List Nat) : List Nat :=
  let s := (toBlocks (shaPad msg)).foldl shaCompress shaInit
  natToBEBytes 4 s.a ++ natToBEBytes 4 s.b ++ natToBEBytes 4 s.c ++ natToBEBytes 4 s.d ++
    natToBEBytes 4 s.e ++ natToBEBytes 4 s.f ++ natToBEBytes 4 s.g ++ natToBEBytes 4 s.h

/-! ## Byte-level codecs: UTF-8 string bytes, hex encoding, decimal formatting -/

/-- UTF-8 encoding of one Unicode code point (Rust strings are UTF-8, so
`str::as_bytes` yields exactly these bytes). -/
def utf8Bytes (c : Nat) : List Nat :=
  if c < 0x80 then [c]
  else if c < 0x800 then
    [0xc0 ||| (c >>> 6), 0x80 ||| (c &&& 0x3f)]
  else if c < 0x10000 then
    [0xe0 ||| (c >>> 12), 0x80 ||| ((c >>> 6) &&& 0x3f), 0x80 ||| (c &&& 0x3f)]
  else
    [0xf0 ||| (c >>> 18), 0x80 ||| ((c >>> 12) &&& 0x3f), 0x80 ||| ((c >>> 6) &&& 0x3f),
     0x80 ||| (c &&& 0x3f)]

/-- The UTF-8 bytes of a string (`str::as_bytes`). -/
def strBytes (s : String) : List Nat :=
  s.data.flatMap fun c => utf8Bytes c.toNat

/-- Lower-case hex digit for a value below 16 (as produced by `hex::encode`). -/
def hexDigitChar (n : Nat) : Char :=
  if n < 10 then Char.ofNat (48 + n) else Char.ofNat (87 + n)

/-- The character list of the lower-case hex rendering of a byte list. -/
def hexChars (l : List Nat) : List Char :=
  l.flatMap fun b => [hexDigitChar (b / 16), hexDigitChar (b % 16)]

/-- Embeds `hex::encode`: two lower-case hex digits per byte. -/
def hexEncode (l : List Nat) : String :=
  String.mk (hexChars l)

/-- Little-endian decimal digits of a number, with structural fuel
(a fuel of `n` is always enough since the argument strictly decreases). -/
def decDigitsFuel : Nat → Nat → List Nat
  | 0, _ => []
  | _, 0 => []
  | fuel + 1, n + 1 => ((n + 1) % 10) :: decDigitsFuel fuel ((n + 1) / 10)

/-- The decimal digit characters of a number, most significant first
(the rendering `format!` uses for `u64`). -/
def decChars (n : Nat) : List Char :=
  if n = 0 then [Char.ofNat 48]
  else ((decDigitsFuel n n).map fun d => Char.ofNat (48 + d)).reverse

/-- The character list of `format!("{:010}", n)`: the decimal rendering
left-padded with zeros to a minimum width of 10 (never truncated). -/
def pad10Chars (n : Nat) : List Char :=
  List.replicate (10 - (decChars n).length) (Char.ofNat 48) ++ decChars n

/-- Embeds `format!("{:010}", n)` as a string. -/
def pad10 (n : Nat) : String :=
  String.mk (pad10Chars n)

/-- Read a decimal digit string back to a number (leading zeros are harmless). -/
def charsToNat (l : List Char) : Nat :=
  l.foldl (fun acc c => acc * 10 + (c.toNat - 48)) 0

/-! ## CRC32C and checksummed buffers

`ChecksummedBytes` lives in `mountpoint-s3/src/checksums.rs`, which is not
part of the sources under verification; it is modelled from the spec here. -/

/-- One bit-step of the reflected CRC32C division (polynomial `0x82f63b78`). -/
def crc32cStep (c : Nat) : Nat :=
  if c % 2 = 1 then (c >>> 1) ^^^ 0x82f63b78 else c >>> 1

/-- Fold one byte into the CRC32C accumulator. -/
def crc32cByte (c b : Nat) : Nat :=
  (List.range 8).foldl (fun acc _ => crc32cStep acc) (c ^^^ b)

/-- CRC32C of a byte list (init and final xor `0xffffffff`), the integrity
checksum `ChecksummedBytes` carries (`Crc32c` in the real code). -/
def crc32c (data : List Nat) : Nat :=
  (data.foldl crc32cByte 0xffffffff) ^^^ 0xffffffff

/-- Failure to take a checksummed buffer apart (`IntegrityError`). -/
inductive IntegrityError where
  | checksumMismatch
deriving DecidableEq

/-- Modelled from the spec: `ChecksummedBytes` (from `checksums.rs`, not under
the verified sources) is "an owned byte buffer paired with an integrity
checksum computed over its content". -/
structure ChecksummedBytes where
  bytes : List Nat
  checksum : Nat
deriving DecidableEq

/-- Modelled from the spec: the `Bytes → ChecksummedBytes` conversion
(`buffer.into()` on the read path) computes the checksum over the content. -/
def ChecksummedBytes.fromBytes (b : List Nat) : ChecksummedBytes :=
  ⟨b, crc32c b⟩

/-- Modelled from the spec: `into_inner` extracts the raw payload and checksum;
a corrupted or inconsistent buffer (checksum not matching the content) fails. -/
def ChecksummedBytes.intoInner (cb : ChecksummedBytes) :
    Except IntegrityError (List Nat × Nat) :=
  if cb.checksum = crc32c cb.bytes then .ok (cb.bytes, cb.checksum)
  else .error .checksumMismatch

/-! ## The cache data model (`express_data_cache.rs`) -/

/-- Embeds `ObjectId`: the cache key, an origin key plus entity tag (`key()` and
`etag().as_str()` are the two strings hashed by `block_key`). -/
structure ObjectId where
  key : String
  etag : String
deriving DecidableEq

/-- The cache error taxonomy (`DataCacheError` variants used by this backend). -/
inductive DataCacheError where
  | invalidBlockOffset
  | invalidBlockContent
  | ioFailure (e : String)
deriving DecidableEq

/-- Embeds `CACHE_VERSION`: the cache format version tag. -/
def CACHE_VERSION : String := "V1"

/-- Embeds the `ExpressDataCache` state: bucket name, the namespace digest (the Rust
struct's prefix field, a hex SHA-256 computed once in `new`), and the
immutable block size.  The injected `client` is modelled as the oracle
argument of each operation instead of a stored field. -/
structure ExpressDataCache where
  bucketName : String
  namespaceDigest : String
  blockSize : Nat
deriving DecidableEq

/-- Embeds `ExpressDataCache::new`: hash `CACHE_VERSION`, the block size as 8
big-endian bytes (`u64::to_be_bytes`), and the source description. -/
def ExpressDataCache.new (bucketName sourceDescription : String) (blockSize : Nat) :
    ExpressDataCache :=
  { bucketName := bucketName
    namespaceDigest := hexEncode (sha256
      (strBytes CACHE_VERSION ++ natToBEBytes 8 blockSize ++ strBytes sourceDescription))
    blockSize := blockSize }

/-- Embeds `block_key`: `format!("{}/{}/{:010}", prefix, hashed_cache_key, block_idx)`
where the hashed cache key is the hex SHA-256 of the origin key bytes followed
by the entity-tag bytes. -/
def blockKey (ns : String) (cacheKey : ObjectId) (blockIdx : Nat) : String :=
  ns ++ "/" ++ hexEncode (sha256 (strBytes cacheKey.key ++ strBytes cacheKey.etag)) ++
    "/" ++ pad10 blockIdx

/-! ## The backing store and the streaming read -/

/-- One item pulled from the streaming get: a chunk tagged with its starting
offset, or a terminal error (`NoSuchKey` is special-cased). -/
inductive StreamItem where
  | chunk (offset : Nat) (body : List Nat)
  | noSuchKey
  | failure (e : String)
deriving DecidableEq

/-- The client's answer to `get_object`: not found, another error, or a
stream of items. -/
inductive GetObjectOutcome where
  | noSuchKey
  | failure (e : String)
  | found (items : List StreamItem)
deriving DecidableEq

/-- The reassembly loop of `get_block` (lines 85–100): reject a chunk whose
offset is not the accumulated length, extend the buffer, map `NoSuchKey` to a
miss and any other stream error to an I/O failure. -/
def getBlockLoop : List StreamItem → List Nat → Except DataCacheError (Option (List Nat))
  | [], buffer => .ok (some buffer)
  | .chunk offset body :: rest, buffer =>
    if offset ≠ buffer.length then .error .invalidBlockOffset
    else getBlockLoop rest (buffer ++ body)
  | .noSuchKey :: _, _ => .ok none
  | .failure e :: _, _ => .error (.ioFailure e)

/-- Embeds `get_block` after the `get_object` call: `NoSuchKey` is a miss, other
errors are I/O failures, and a successful stream is reassembled and wrapped
as checksummed bytes (`buffer.freeze()` then `.into()`). -/
def getBlockOnResponse (response : GetObjectOutcome) :
    Except DataCacheError (Option ChecksummedBytes) :=
  match response with
  | .noSuchKey => .ok none
  | .failure e => .error (.ioFailure e)
  | .found items => (getBlockLoop items []).map (Option.map ChecksummedBytes.fromBytes)

/-- Embeds `get_block`: check the offset precondition, derive the object key, ask the
client for that key only, and process the response. -/
def getBlock (c : ExpressDataCache) (client : String → GetObjectOutcome)
    (cacheKey : ObjectId) (blockIdx blockOffset : Nat) :
    Except DataCacheError (Option ChecksummedBytes) :=
  if blockOffset ≠ blockIdx * c.blockSize % 2 ^ 64 then .error .invalidBlockOffset
  else getBlockOnResponse (client (blockKey c.namespaceDigest cacheKey blockIdx))

/-- The persisted contents of the backing store: object key to object bytes. -/
def Store : Type := String → Option (List Nat)

/-- A client backed by a store: a missing key reports `NoSuchKey`, a present
object is streamed (here as one chunk starting at offset 0). -/
def storeClient (store : Store) (key : String) : GetObjectOutcome :=
  match store key with
  | none => .noSuchKey
  | some data => .found [.chunk 0 data]

/-- Replacing one object in the store (the effect of a completed upload). -/
def storeUpdate (store : Store) (key : String) (data : List Nat) : Store :=
  fun k => if k = key then some data else store k

/-- The calls `put_block` makes on the backing store, in order. -/
inductive PutAction where
  | openSession (bucket key : String)
  | write (data : List Nat)
  | complete
deriving DecidableEq

/-- Embeds `put_block` (lines 105–130), with its store-call trace: check the offset
precondition, derive the object key, open an upload session, take the
checksummed buffer apart (`into_inner`, failure mapped to
`InvalidBlockContent`), write the payload in one shot, and complete, which
replaces exactly the object at the derived key. -/
def putBlockT (c : ExpressDataCache) (store : Store) (cacheKey : ObjectId)
    (blockIdx blockOffset : Nat) (bytes : ChecksummedBytes) :
    Except DataCacheError Store × List PutAction :=
  if blockOffset ≠ blockIdx * c.blockSize % 2 ^ 64 then (.error .invalidBlockOffset, [])
  else
    match bytes.intoInner with
    | .error _ =>
      (.error .invalidBlockContent,
       [.openSession c.bucketName (blockKey c.namespaceDigest cacheKey blockIdx)])
    | .ok (data, _crc) =>
      (.ok (storeUpdate store (blockKey c.namespaceDigest cacheKey blockIdx) data),
       [.openSession c.bucketName (blockKey c.namespaceDigest cacheKey blockIdx),
        .write data, .complete])

/-- Embeds `put_block`: the result alone, with the store threaded through. -/
def putBlock (c : ExpressDataCache) (store : Store) (cacheKey : ObjectId)
    (blockIdx blockOffset : Nat) (bytes : ChecksummedBytes) :
    Except DataCacheError Store :=
  (putBlockT c store cacheKey blockIdx blockOffset bytes).1

/-! ## Flow-control window instrumentation of the read loop

The loop raises the read window by one block size before consuming anything
(line 82) and by another block size after each consumed chunk (line 95).
`windowSteps` records the `(window granted, bytes consumed)` state after each
accepted chunk; `windowTrace` prepends the state after the initial raise. -/

/-- States after each accepted chunk: the chunk is accepted when its offset is
the consumed length, the consumed count grows by the body length, and the
granted window grows by one block size. -/
def windowSteps (bs : Nat) : List (Nat × List Nat) → Nat → Nat → List (Nat × Nat)
  | [], _, _ => []
  | (offset, body) :: rest, granted, consumed =>
    if offset = consumed then
      (granted + bs, consumed + body.length) ::
        windowSteps bs rest (granted + bs) (consumed + body.length)
    else []

/-- The window/consumption states of a read: one block size granted up front,
then one more after each accepted chunk. -/
def windowTrace (bs : Nat) (chunks : List (Nat × List Nat)) : List (Nat × Nat) :=
  (bs, 0) :: windowSteps bs chunks bs 0

/-- The store respects backpressure: every delivered chunk ends within the
window granted at its delivery. -/
def respectsBackpressure (bs : Nat) : List (Nat × List Nat) → Nat → Nat → Bool
  | [], _, _ => true
  | (offset, body) :: rest, granted, consumed =>
    if offset = consumed then
      decide (offset + body.length ≤ granted) &&
        respectsBackpressure bs rest (granted + bs) (consumed + body.length)
    else true

/-- In-order concatenation of the leading chunk bodies of a stream. -/
def chunkBodies : List StreamItem → List Nat
  | .chunk _ body :: rest => body ++ chunkBodies rest
  | _ => []

/-- The stream is all chunks, strictly sequential starting at `n`. -/
def sequentialFrom (n : Nat) : List StreamItem → Bool
  | [] => true
  | .chunk offset body :: rest => offset == n && sequentialFrom (n + body.length) rest
  | _ => false

/-- Hex digit value of a character (inverse of `hexDigitChar` on digits). -/
def hexVal (c : Char) : Nat :=
  if 97 ≤ c.toNat then c.toNat - 87 else c.toNat - 48

/-- Read a hex character list back to bytes, two characters per byte. -/
def unhexPairs : List Char → List Nat
  | c1 :: c2 :: rest => (hexVal c1 * 16 + hexVal c2) :: unhexPairs rest
  | _ => []

/-! ## Codec lemmas -/

theorem decDigitsFuel_eq_digits (fuel n : Nat) (h : n ≤ fuel) :
    decDigitsFuel fuel n = Nat.digits 10 n := by
  induction fuel generalizing n with
  | zero =>
    interval_cases n
    simp [decDigitsFuel]
  | succ f ih =>
    match n with
    | 0 => simp [decDigitsFuel]
    | m + 1 =>
      rw [decDigitsFuel, Nat.digits_def' (by norm_num) (Nat.succ_pos m)]
      congr 1
      exact ih _ (by have := Nat.div_lt_self (Nat.succ_pos m) (by norm_num : 1 < 10); omega)

theorem charZero_toNat : (Char.ofNat 48).toNat = 48 := by decide

theorem digitChar_toNat (d : Nat) (h : d < 10) : (Char.ofNat (48 + d)).toNat = 48 + d := by
  interval_cases d <;> decide

theorem foldl_decimal_replicate (k : Nat) :
    List.foldl (fun acc c => acc * 10 + (c.toNat - 48)) 0 (List.replicate k (Char.ofNat 48)) = 0 := by
  induction k with
  | zero => rfl
  | succ m ih => simpa [List.replicate_succ, charZero_toNat] using ih

theorem foldl_decimal_digits (l : List Nat) (hl : ∀ d ∈ l, d < 10) (acc : Nat) :
    List.foldl (fun acc c => acc * 10 + (c.toNat - 48))
      acc ((l.map fun d => Char.ofNat (48 + d)).reverse) =
      acc * 10 ^ l.length + Nat.ofDigits 10 l := by
  induction l generalizing acc with
  | nil => simp [Nat.ofDigits_nil]
  | cons d ds ih =>
    have hd : d < 10 := hl d (by simp)
    have hds : ∀ x ∈ ds, x < 10 := fun x hx => hl x (by simp [hx])
    simp only [List.map_cons, List.reverse_cons, List.foldl_append, List.foldl_cons,
      List.foldl_nil, ih hds acc, Nat.ofDigits_cons, digitChar_toNat d hd, List.length_cons]
    ring_nf
    omega

theorem charsToNat_pad10Chars (n : Nat) : charsToNat (pad10Chars n) = n := by
  unfold charsToNat pad10Chars
  rw [List.foldl_append, foldl_decimal_replicate]
  by_cases hn : n = 0
  · subst hn
    simp [decChars, charZero_toNat]
  · unfold decChars
    rw [if_neg hn, decDigitsFuel_eq_digits n n le_rfl,
      foldl_decimal_digits _ (fun d hd => Nat.digits_lt_base (by norm_num) hd)]
    simp [Nat.ofDigits_digits]

theorem pad10Chars_injective (a b : Nat) (h : pad10Chars a = pad10Chars b) : a = b := by
  have := congrArg charsToNat h
  rwa [charsToNat_pad10Chars, charsToNat_pad10Chars] at this

theorem decChars_length_le (n : Nat) (h : n < 10 ^ 10) : (decChars n).length ≤ 10 := by
  by_cases hn : n = 0
  · subst hn; simp [decChars]
  · unfold decChars
    rw [if_neg hn]
    simp only [List.length_reverse, List.length_map,
      decDigitsFuel_eq_digits n n le_rfl]
    by_contra hlen
    have h11 : 11 ≤ (Nat.digits 10 n).length := by omega
    have hle := Nat.base_pow_length_digits_le 10 n (by norm_num) hn
    have : (10 : Nat) ^ 11 ≤ 10 ^ (Nat.digits 10 n).length :=
      Nat.pow_le_pow_right (by norm_num) h11
    have hpow : (10 : Nat) ^ 11 = 10 * 10 ^ 10 := by norm_num
    omega

theorem decChars_length_gt (n : Nat) (h : 10 ^ 10 ≤ n) : 10 < (decChars n).length := by
  have hn : n ≠ 0 := by
    have h0 : (0 : Nat) < 10 ^ 10 := by norm_num
    omega
  unfold decChars
  rw [if_neg hn]
  simp only [List.length_reverse, List.length_map, decDigitsFuel_eq_digits n n le_rfl]
  by_contra hlen
  have hlt := Nat.lt_base_pow_length_digits (b := 10) (m := n) (by norm_num)
  have : (10 : Nat) ^ (Nat.digits 10 n).length ≤ 10 ^ 10 :=
    Nat.pow_le_pow_right (by norm_num) (by omega)
  omega

theorem pad10Chars_length (n : Nat) :
    (pad10Chars n).length = max 10 (decChars n).length := by
  simp [pad10Chars]
  omega

theorem hexVal_hexDigitChar (d : Nat) (h : d < 16) : hexVal (hexDigitChar d) = d := by
  interval_cases d <;> decide

theorem unhexPairs_hexChars (l : List Nat) (hl : ∀ b ∈ l, b < 256) :
    unhexPairs (hexChars l) = l := by
  induction l with
  | nil => rfl
  | cons b bs ih =>
    have hb : b < 256 := hl b (by simp)
    have hbs : ∀ x ∈ bs, x < 256 := fun x hx => hl x (by simp [hx])
    have hdiv : b / 16 < 16 := by omega
    have hmod : b % 16 < 16 := Nat.mod_lt _ (by norm_num)
    have hsum := Nat.div_add_mod b 16
    simp only [hexChars, List.flatMap_cons, List.cons_append, List.nil_append]
    rw [unhexPairs, hexVal_hexDigitChar _ hdiv, hexVal_hexDigitChar _ hmod]
    have : b / 16 * 16 + b % 16 = b := by omega
    rw [this]
    exact congrArg (b :: ·) (ih hbs)

theorem hexChars_injOn (l1 l2 : List Nat) (h1 : ∀ b ∈ l1, b < 256) (h2 : ∀ b ∈ l2, b < 256)
    (h : hexChars l1 = hexChars l2) : l1 = l2 := by
  have := congrArg unhexPairs h
  rwa [unhexPairs_hexChars l1 h1, unhexPairs_hexChars l2 h2] at this

theorem hexChars_length (l : List Nat) : (hexChars l).length = 2 * l.length := by
  induction l with
  | nil => rfl
  | cons b bs ih => simp [hexChars, List.flatMap_cons] at ih ⊢; omega

theorem natToBEBytes_length (w n : Nat) : (natToBEBytes w n).length = w := by
  simp [natToBEBytes]

theorem natToBEBytes_lt (w n : Nat) : ∀ b ∈ natToBEBytes w n, b < 256 := by
  intro b hb
  simp only [natToBEBytes, List.mem_map, List.mem_range] at hb
  obtain ⟨i, _, rfl⟩ := hb
  have := Nat.and_le_right (n := n >>> (8 * (w - 1 - i))) (m := 255)
  omega

theorem sha256_length (msg : List Nat) : (sha256 msg).length = 32 := by
  simp [sha256, natToBEBytes_length]

theorem sha256_lt (msg : List Nat) : ∀ b ∈ sha256 msg, b < 256 := by
  intro b hb
  simp only [sha256, List.mem_append] at hb
  rcases hb with ((((((hb | hb) | hb) | hb) | hb) | hb) | hb) | hb <;>
    exact natToBEBytes_lt _ _ _ hb

/-! ## Key derivation lemmas -/

theorem append5_inj {α : Type} (a m1 p1 m2 p2 d : List α) (hm : m1.length = m2.length)
    (h : a ++ d ++ m1 ++ d ++ p1 = a ++ d ++ m2 ++ d ++ p2) : m1 = m2 ∧ p1 = p2 := by
  have h1 : (a ++ d) ++ (m1 ++ (d ++ p1)) = (a ++ d) ++ (m2 ++ (d ++ p2)) := by
    simpa [List.append_assoc] using h
  have h2 := List.append_cancel_left h1
  obtain ⟨hm12, hrest⟩ := List.append_inj h2 hm
  exact ⟨hm12, List.append_cancel_left hrest⟩

theorem blockKey_ne (ns : String) (ck1 ck2 : ObjectId) (i1 i2 : Nat)
    (h : i1 ≠ i2 ∨ sha256 (strBytes ck1.key ++ strBytes ck1.etag) ≠
      sha256 (strBytes ck2.key ++ strBytes ck2.etag)) :
    blockKey ns ck1 i1 ≠ blockKey ns ck2 i2 := by
  intro heq
  have hd := congrArg String.data heq
  simp only [blockKey, hexEncode, pad10, String.data_append] at hd
  have hm : (hexChars (sha256 (strBytes ck1.key ++ strBytes ck1.etag))).length =
      (hexChars (sha256 (strBytes ck2.key ++ strBytes ck2.etag))).length := by
    rw [hexChars_length, hexChars_length, sha256_length, sha256_length]
  obtain ⟨hhex, hpad⟩ := append5_inj ns.data _ _ _ _ ("/" : String).data hm hd
  rcases h with hidx | hsha
  · exact hidx (pad10Chars_injective i1 i2 hpad)
  · exact hsha (hexChars_injOn _ _ (sha256_lt _) (sha256_lt _) hhex)

/-! ## Flow-control window lemmas -/

theorem windowSteps_chain (bs : Nat) (chunks : List (Nat × List Nat)) (g c : Nat) :
    List.Chain (fun p q => q.1 = p.1 + bs) (g, c) (windowSteps bs chunks g c) := by
  induction chunks generalizing g c with
  | nil => exact .nil
  | cons ch rest ih =>
    obtain ⟨o, b⟩ := ch
    by_cases h : o = c
    · simp only [windowSteps, if_pos h]
      exact List.chain_cons.mpr ⟨rfl, ih _ _⟩
    · simp only [windowSteps, if_neg h]
      exact .nil

theorem windowSteps_inv (bs : Nat) (chunks : List (Nat × List Nat)) (g c : Nat)
    (hbp : respectsBackpressure bs chunks g c = true) (hg : c + bs ≤ g) :
    ∀ p ∈ windowSteps bs chunks g c, p.2 + bs ≤ p.1 := by
  induction chunks generalizing g c with
  | nil => simp [windowSteps]
  | cons ch rest ih =>
    obtain ⟨o, b⟩ := ch
    by_cases h : o = c
    · simp only [respectsBackpressure, if_pos h, Bool.and_eq_true, decide_eq_true_eq] at hbp
      obtain ⟨hle, hrest⟩ := hbp
      intro p hp
      simp only [windowSteps, if_pos h, List.mem_cons] at hp
      rcases hp with rfl | hp
      · simp only
        omega
      · exact ih (g + bs) (c + b.length) hrest (by omega) p hp
    · intro p hp
      simp [windowSteps, if_neg h] at hp

/-! ## The claims -/

/-- Claim C1: for every valid cache key, block index, and byte buffer whose
checksum matches its content, `put_block` at `(cache_key, block_index,
block_index * block_size)` succeeds, replacing exactly the derived object,
and `get_block` at the same coordinates over the resulting store returns
`Some` of a buffer bit-identical, checksum included, to what was written. -/
theorem putGet_roundtrip (c : ExpressDataCache) (store : Store) (ck : ObjectId) (idx : Nat)
    (bytes : ChecksummedBytes) (hvalid : bytes.checksum = crc32c bytes.bytes) :
    putBlock c store ck idx (idx * c.blockSize % 2 ^ 64) bytes =
      .ok (storeUpdate store (blockKey c.namespaceDigest ck idx) bytes.bytes) ∧
    getBlock c (storeClient (storeUpdate store (blockKey c.namespaceDigest ck idx) bytes.bytes))
      ck idx (idx * c.blockSize % 2 ^ 64) = .ok (some bytes) := by
  obtain ⟨data, chk⟩ := bytes
  simp only at hvalid
  subst hvalid
  constructor
  · simp [putBlock, putBlockT, ChecksummedBytes.intoInner]
  · simp [getBlock, getBlockOnResponse, storeClient, storeUpdate, getBlockLoop,
      ChecksummedBytes.fromBytes, Except.map]

/-- Witness for C1 at a concrete cache, store, key, and buffer. -/
theorem putGet_roundtrip_witness :
    getBlock ⟨"bucket", "ns", 1024⟩
      (storeClient (storeUpdate (fun _ => none)
        (blockKey "ns" ⟨"a", "etag"⟩ 0) [70, 111, 111]))
      ⟨"a", "etag"⟩ 0 (0 * 1024 % 2 ^ 64) =
      .ok (some ⟨[70, 111, 111], crc32c [70, 111, 111]⟩) :=
  (putGet_roundtrip ⟨"bucket", "ns", 1024⟩ (fun _ => none) ⟨"a", "etag"⟩ 0
    ⟨[70, 111, 111], crc32c [70, 111, 111]⟩ rfl).2

/-- Claim C2: the object key used by `get_block` and `put_block` is
`hex(sha256("V1" ++ be8(block_size) ++ source_description))` then `/` then
`hex(sha256(origin_name ++ entity_tag))` then `/` then the block index
zero-padded to 10 decimal digits; the first component is the namespace digest
computed once by `new` and held in the instance, `get_block` consults the
client at exactly that key, and `put_block` opens its upload session at
exactly that key. -/
theorem blockKey_layout (bucket src : String) (bs : Nat) (ck : ObjectId) (idx : Nat) :
    (ExpressDataCache.new bucket src bs).namespaceDigest =
      hexEncode (sha256 (strBytes "V1" ++ natToBEBytes 8 bs ++ strBytes src)) ∧
    blockKey (ExpressDataCache.new bucket src bs).namespaceDigest ck idx =
      hexEncode (sha256 (strBytes "V1" ++ natToBEBytes 8 bs ++ strBytes src)) ++ "/" ++
        hexEncode (sha256 (strBytes ck.key ++ strBytes ck.etag)) ++ "/" ++ pad10 idx ∧
    (∀ (client : String → GetObjectOutcome) (off : Nat),
      getBlock (ExpressDataCache.new bucket src bs) client ck idx off =
        if off ≠ idx * bs % 2 ^ 64 then .error .invalidBlockOffset
        else getBlockOnResponse
          (client (blockKey (ExpressDataCache.new bucket src bs).namespaceDigest ck idx))) ∧
    (∀ (store : Store) (off : Nat) (bytes : ChecksummedBytes),
      (putBlockT (ExpressDataCache.new bucket src bs) store ck idx off bytes).2.head? =
        if off ≠ idx * bs % 2 ^ 64 then none
        else some (.openSession bucket
          (blockKey (ExpressDataCache.new bucket src bs).namespaceDigest ck idx))) := by
  refine ⟨rfl, rfl, fun client off => rfl, fun store off bytes => ?_⟩
  show (putBlockT ⟨bucket, _, bs⟩ store ck idx off bytes).2.head? = _
  unfold putBlockT
  by_cases hoff : off ≠ idx * bs % 2 ^ 64
  · rw [if_pos hoff, if_pos hoff]
    rfl
  · rw [if_neg hoff, if_neg hoff]
    rcases h : bytes.intoInner with err | ⟨data, chk⟩ <;> rfl

/-- Claim C3: a call with `block_offset ≠ block_index * block_size` fails with
`InvalidBlockOffset` independently of the backing store: `get_block` returns
the error for every client, and `put_block` returns it with an empty
store-call trace, so no call to the store is issued. -/
theorem offset_mismatch_rejected (c : ExpressDataCache) (ck : ObjectId) (idx off : Nat)
    (hoff : off ≠ idx * c.blockSize % 2 ^ 64) :
    (∀ client, getBlock c client ck idx off = .error .invalidBlockOffset) ∧
    (∀ store bytes, putBlockT c store ck idx off bytes = (.error .invalidBlockOffset, [])) := by
  constructor
  · intro client
    unfold getBlock
    rw [if_pos hoff]
  · intro store bytes
    unfold putBlockT
    rw [if_pos hoff]

/-- Witness for C3 at a concrete cache and a mismatching offset. -/
theorem offset_mismatch_rejected_witness :
    getBlock ⟨"b", "ns", 4⟩ (fun _ => .noSuchKey) ⟨"k", "e"⟩ 0 1 =
      .error .invalidBlockOffset ∧
    putBlockT ⟨"b", "ns", 4⟩ (fun _ => none) ⟨"k", "e"⟩ 0 1 ⟨[], 0⟩ =
      (.error .invalidBlockOffset, []) :=
  ⟨(offset_mismatch_rejected ⟨"b", "ns", 4⟩ ⟨"k", "e"⟩ 0 1 (by decide)).1 _,
   (offset_mismatch_rejected ⟨"b", "ns", 4⟩ ⟨"k", "e"⟩ 0 1 (by decide)).2 _ _⟩

/-- Claim C4: an absent object is a miss, not an error: a `NoSuchKey` answer
to the request, or a `NoSuchKey` error on a stream chunk, collapses to
`Ok(None)`, any other store error becomes an I/O failure, and over a store
with no object at the derived key `get_block` returns `Ok(None)`. -/
theorem miss_not_error (c : ExpressDataCache) :
    getBlockOnResponse .noSuchKey = .ok none ∧
    (∀ e, getBlockOnResponse (.failure e) = .error (.ioFailure e)) ∧
    (∀ items buffer, getBlockLoop (.noSuchKey :: items) buffer = .ok none) ∧
    (∀ e items buffer, getBlockLoop (.failure e :: items) buffer = .error (.ioFailure e)) ∧
    (∀ (store : Store) (ck : ObjectId) (idx : Nat),
      store (blockKey c.namespaceDigest ck idx) = none →
      getBlock c (storeClient store) ck idx (idx * c.blockSize % 2 ^ 64) = .ok none) := by
  refine ⟨rfl, fun e => rfl, fun items buffer => rfl, fun e items buffer => rfl, ?_⟩
  intro store ck idx h
  simp [getBlock, storeClient, h, getBlockOnResponse]

/-- Witness for C4 over the empty store. -/
theorem miss_not_error_witness :
    getBlock ⟨"b", "ns", 4⟩ (storeClient (fun _ => none)) ⟨"k", "e"⟩ 0 (0 * 4 % 2 ^ 64) =
      .ok none :=
  (miss_not_error ⟨"b", "ns", 4⟩).2.2.2.2 (fun _ => none) ⟨"k", "e"⟩ 0 rfl

/-- Claim C5: the reassembly loop rejects with `InvalidBlockOffset` any chunk
whose offset is not the bytes accumulated so far, and whenever it returns a
buffer that buffer is the in-order concatenation of the chunk bodies, each
chunk starting exactly at the running accumulated length. -/
theorem stream_reassembly :
    (∀ offset body items buffer, offset ≠ buffer.length →
      getBlockLoop (.chunk offset body :: items) buffer = .error .invalidBlockOffset) ∧
    (∀ items buffer res, getBlockLoop items buffer = .ok (some res) →
      res = buffer ++ chunkBodies items ∧ sequentialFrom buffer.length items = true) := by
  constructor
  · intro offset body items buffer h
    simp [getBlockLoop, h]
  · intro items
    induction items with
    | nil =>
      intro buffer res h
      simp only [getBlockLoop, Except.ok.injEq, Option.some.injEq] at h
      subst h
      simp [chunkBodies, sequentialFrom]
    | cons it rest ih =>
      intro buffer res h
      match it with
      | .chunk offset body =>
        by_cases ho : offset = buffer.length
        · simp only [getBlockLoop, ho, ne_eq, not_true_eq_false, if_false] at h
          obtain ⟨h1, h2⟩ := ih (buffer ++ body) res h
          refine ⟨by rw [h1]; simp [chunkBodies], ?_⟩
          simp only [sequentialFrom, ho, beq_self_eq_true, Bool.true_and]
          simpa [List.length_append] using h2
        · simp [getBlockLoop, ho] at h
      | .noSuchKey => simp [getBlockLoop] at h
      | .failure e => simp [getBlockLoop] at h

/-- Witness for C5: a mismatching chunk is rejected, and a two-chunk stream
reassembles to the concatenation. -/
theorem stream_reassembly_witness :
    getBlockLoop [.chunk 5 [1]] [] = .error .invalidBlockOffset ∧
    ([1, 2, 3] : List Nat) = [] ++ chunkBodies [.chunk 0 [1, 2], .chunk 2 [3]] ∧
    sequentialFrom (List.length ([] : List Nat)) [.chunk 0 [1, 2], .chunk 2 [3]] = true :=
  ⟨stream_reassembly.1 5 [1] [] [] (by decide),
   (stream_reassembly.2 [.chunk 0 [1, 2], .chunk 2 [3]] [] [1, 2, 3] rfl).1,
   (stream_reassembly.2 [.chunk 0 [1, 2], .chunk 2 [3]] [] [1, 2, 3] rfl).2⟩

/-- Claim C6: the read window is raised by one block size before the first
chunk is consumed, by another block size after each consumed chunk, and —
when the store respects backpressure, never delivering beyond the granted
window — the window granted exceeds the bytes consumed by at least one block
size at every state of the read. -/
theorem read_window_invariant (bs : Nat) (chunks : List (Nat × List Nat))
    (hbp : respectsBackpressure bs chunks bs 0 = true) :
    (windowTrace bs chunks).head? = some (bs, 0) ∧
    List.Chain' (fun p q : Nat × Nat => q.1 = p.1 + bs) (windowTrace bs chunks) ∧
    (∀ p ∈ windowTrace bs chunks, p.2 + bs ≤ p.1) := by
  refine ⟨rfl, windowSteps_chain bs chunks bs 0, ?_⟩
  intro p hp
  rcases List.mem_cons.mp hp with rfl | hp
  · omega
  · exact windowSteps_inv bs chunks bs 0 hbp (by omega) p hp

/-- Witness for C6 on a concrete backpressure-respecting stream. -/
theorem read_window_invariant_witness :
    (windowTrace 4 [(0, [1, 2])]).head? = some (4, 0) ∧
    (∀ p ∈ windowTrace 4 [(0, [1, 2])], p.2 + 4 ≤ p.1) :=
  ⟨(read_window_invariant 4 [(0, [1, 2])] (by decide)).1,
   (read_window_invariant 4 [(0, [1, 2])] (by decide)).2.2⟩

/-- Claim C7: an aligned `put_block` opens one upload session at the derived
key; if the checksummed buffer cannot be taken apart it fails with
`InvalidBlockContent` after only that open; otherwise it writes the payload
once, completes, and the resulting store differs from the old one at exactly
the derived key, which now holds the payload. -/
theorem putBlock_upload_protocol (c : ExpressDataCache) (store : Store) (ck : ObjectId)
    (idx : Nat) (bytes : ChecksummedBytes) :
    (∀ err, bytes.intoInner = .error err →
      putBlockT c store ck idx (idx * c.blockSize % 2 ^ 64) bytes =
        (.error .invalidBlockContent,
         [.openSession c.bucketName (blockKey c.namespaceDigest ck idx)])) ∧
    (∀ data chk, bytes.intoInner = .ok (data, chk) →
      putBlockT c store ck idx (idx * c.blockSize % 2 ^ 64) bytes =
        (.ok (storeUpdate store (blockKey c.namespaceDigest ck idx) data),
         [.openSession c.bucketName (blockKey c.namespaceDigest ck idx),
          .write data, .complete])) ∧
    (∀ data, storeUpdate store (blockKey c.namespaceDigest ck idx) data
      (blockKey c.namespaceDigest ck idx) = some data) ∧
    (∀ data k, k ≠ blockKey c.namespaceDigest ck idx →
      storeUpdate store (blockKey c.namespaceDigest ck idx) data k = store k) := by
  refine ⟨?_, ?_, ?_, ?_⟩
  · intro err h
    simp [putBlockT, h]
  · intro data chk h
    simp [putBlockT, h]
  · intro data
    simp [storeUpdate]
  · intro data k hk
    simp [storeUpdate, hk]

/-- Witness for C7: one well-formed buffer and one corrupted buffer. -/
theorem putBlock_upload_protocol_witness :
    putBlockT ⟨"b", "ns", 2⟩ (fun _ => none) ⟨"k", "e"⟩ 0 (0 * 2 % 2 ^ 64)
        ⟨[5], crc32c [5]⟩ =
      (.ok (storeUpdate (fun _ => none) (blockKey "ns" ⟨"k", "e"⟩ 0) [5]),
       [.openSession "b" (blockKey "ns" ⟨"k", "e"⟩ 0), .write [5], .complete]) ∧
    putBlockT ⟨"b", "ns", 2⟩ (fun _ => none) ⟨"k", "e"⟩ 0 (0 * 2 % 2 ^ 64)
        ⟨[5], 1 + crc32c [5]⟩ =
      (.error .invalidBlockContent, [.openSession "b" (blockKey "ns" ⟨"k", "e"⟩ 0)]) :=
  ⟨(putBlock_upload_protocol ⟨"b", "ns", 2⟩ (fun _ => none) ⟨"k", "e"⟩ 0
      ⟨[5], crc32c [5]⟩).2.1 [5] (crc32c [5]) rfl,
   (putBlock_upload_protocol ⟨"b", "ns", 2⟩ (fun _ => none) ⟨"k", "e"⟩ 0
      ⟨[5], 1 + crc32c [5]⟩).1 .checksumMismatch rfl⟩

/-- Claim C8: writing a block at one coordinate leaves `get_block` at any
other coordinate unchanged: when the indices differ, or the cache keys hash
differently (no SHA-256 collision), the derived keys differ, the put replaces
only its own object, and the read at the other coordinate sees the same
store answer as before. -/
theorem putBlock_frame (c : ExpressDataCache) (store : Store) (ck1 ck2 : ObjectId)
    (i1 i2 off2 : Nat) (bytes : ChecksummedBytes)
    (hdist : i1 ≠ i2 ∨ sha256 (strBytes ck1.key ++ strBytes ck1.etag) ≠
      sha256 (strBytes ck2.key ++ strBytes ck2.etag))
    (hvalid : bytes.checksum = crc32c bytes.bytes) :
    putBlock c store ck1 i1 (i1 * c.blockSize % 2 ^ 64) bytes =
      .ok (storeUpdate store (blockKey c.namespaceDigest ck1 i1) bytes.bytes) ∧
    getBlock c (storeClient (storeUpdate store (blockKey c.namespaceDigest ck1 i1) bytes.bytes))
        ck2 i2 off2 =
      getBlock c (storeClient store) ck2 i2 off2 := by
  constructor
  · obtain ⟨data, chk⟩ := bytes
    simp only at hvalid
    subst hvalid
    simp [putBlock, putBlockT, ChecksummedBytes.intoInner]
  · have hne := blockKey_ne c.namespaceDigest ck1 ck2 i1 i2 hdist
    have hsc : storeUpdate store (blockKey c.namespaceDigest ck1 i1) bytes.bytes
        (blockKey c.namespaceDigest ck2 i2) = store (blockKey c.namespaceDigest ck2 i2) := by
      simp only [storeUpdate]
      rw [if_neg (fun hk => hne hk.symm)]
    simp only [getBlock, storeClient, hsc]

/-- Witness for C8: a write under one key does not disturb a read of another
block index. -/
theorem putBlock_frame_witness :
    getBlock ⟨"b", "ns", 4⟩
      (storeClient (storeUpdate (fun _ => none) (blockKey "ns" ⟨"k1", "e"⟩ 0) [9]))
      ⟨"k2", "e"⟩ 1 4 =
    getBlock ⟨"b", "ns", 4⟩ (storeClient (fun _ => none)) ⟨"k2", "e"⟩ 1 4 :=
  (putBlock_frame ⟨"b", "ns", 4⟩ (fun _ => none) ⟨"k1", "e"⟩ ⟨"k2", "e"⟩ 0 1 4
    ⟨[9], crc32c [9]⟩ (Or.inl (by decide)) rfl).2

/-- Claim C9: the final component of the object key is the decimal rendering
of the block index zero-padded to width 10: it parses back to the index, it
is exactly 10 characters for every index below `10^10`, and indices at or
above `10^10` do not fit in that width (their component is longer). -/
theorem blockIndex_width_bound (ns : String) (ck : ObjectId) (idx : Nat) :
    blockKey ns ck idx =
      ns ++ "/" ++ hexEncode (sha256 (strBytes ck.key ++ strBytes ck.etag)) ++ "/" ++
        pad10 idx ∧
    charsToNat (pad10 idx).data = idx ∧
    (idx < 10 ^ 10 → (pad10 idx).length = 10) ∧
    (10 ^ 10 ≤ idx → 10 < (pad10 idx).length) := by
  refine ⟨rfl, charsToNat_pad10Chars idx, ?_, ?_⟩
  · intro h
    show (String.mk (pad10Chars idx)).length = 10
    rw [String.length_mk, pad10Chars_length]
    have := decChars_length_le idx h
    omega
  · intro h
    show 10 < (String.mk (pad10Chars idx)).length
    rw [String.length_mk, pad10Chars_length]
    have := decChars_length_gt idx h
    omega

/-- Witness for C9 at an index inside the width and at the first index
outside it. -/
theorem blockIndex_width_bound_witness :
    (pad10 3).length = 10 ∧ 10 < (pad10 (10 ^ 10)).length :=
  ⟨(blockIndex_width_bound "ns" ⟨"k", "e"⟩ 3).2.2.1 (by norm_num),
   (blockIndex_width_bound "ns" ⟨"k", "e"⟩ (10 ^ 10)).2.2.2 le_rfl⟩

/-- Claim C10: when the store reports the object exists but its stream ends
after zero chunks, `get_block` returns `Ok(Some(empty))` — an empty cached
block with a fresh checksum — which is distinguishable from the `Ok(None)`
miss. -/
theorem empty_object_hit (c : ExpressDataCache) (ck : ObjectId) (idx : Nat)
    (client : String → GetObjectOutcome)
    (hfound : client (blockKey c.namespaceDigest ck idx) = .found []) :
    getBlockOnResponse (.found []) = .ok (some (ChecksummedBytes.fromBytes [])) ∧
    getBlock c client ck idx (idx * c.blockSize % 2 ^ 64) =
      .ok (some (ChecksummedBytes.fromBytes [])) ∧
    getBlock c client ck idx (idx * c.blockSize % 2 ^ 64) ≠ .ok none := by
  refine ⟨rfl, ?_, ?_⟩ <;>
    simp [getBlock, hfound, getBlockOnResponse, getBlockLoop, Except.map]

/-- Witness for C10 with a client that answers an empty stream. -/
theorem empty_object_hit_witness :
    getBlock ⟨"b", "ns", 8⟩ (fun _ => .found []) ⟨"k", "e"⟩ 0 (0 * 8 % 2 ^ 64) =
      .ok (some (ChecksummedBytes.fromBytes [])) :=
  (empty_object_hit ⟨"b", "ns", 8⟩ ⟨"k", "e"⟩ 0 (fun _ => .found []) rfl).2.1

end ExpressCache
